import Mathlib

/-!
# Verification of the `accounts` execution codec and signer providers

A shallow embedding of the TypeScript sources (`erc7579.utils.ts`,
`account.ts`, `ecdsa.ts`, and the P256/RSA provider module) over byte
strings modeled as `List Nat` (one natural per byte).  The ABI helpers the
code consumes from its ABI library (`encodePacked`, `encodeAbiParameters`
for `(address,uint256,bytes)[]`, `encodeFunctionData` / `decodeFunctionData`
for `execute(bytes32,bytes)`, `slice`, `hexToBigInt`) are embedded at the
byte level following the standard ABI layout those helpers implement.
External cryptographic primitives (keccak-based hashing, the secp256r1
signing core, the ERC-4337 user-operation hash) are treated as abstract
function parameters, as the sources only consume them.
-/

set_option maxRecDepth 10000

deriving instance DecidableEq for Except

namespace Accounts

/-- A byte string: one natural number (expected `< 256`) per byte. -/
abbrev Bytes := List Nat

/-- Big-endian bytes of `n`, exactly `len` bytes (most significant first). -/
def natToBytesBE (len n : Nat) : Bytes :=
  match len with
  | 0 => []
  | l + 1 => natToBytesBE l (n / 256) ++ [n % 256]

/-- Interpret a byte string as a big-endian natural number. -/
def bytesToNat (bs : Bytes) : Nat :=
  bs.foldl (fun acc b => acc * 256 + b) 0

theorem length_natToBytesBE (len n : Nat) : (natToBytesBE len n).length = len := by
  induction len generalizing n with
  | zero => rfl
  | succ l ih => simp [natToBytesBE, ih]

theorem foldl_byte_shift (bs : Bytes) (acc : Nat) :
    bs.foldl (fun a b => a * 256 + b) acc = acc * 256 ^ bs.length + bytesToNat bs := by
  induction bs generalizing acc with
  | nil => simp [bytesToNat]
  | cons x xs ih =>
    have hx : bytesToNat (x :: xs) = x * 256 ^ xs.length + bytesToNat xs := by
      show xs.foldl (fun a b => a * 256 + b) (0 * 256 + x) = x * 256 ^ xs.length + bytesToNat xs
      rw [ih (0 * 256 + x)]
      ring
    simp only [List.foldl_cons, List.length_cons]
    rw [ih (acc * 256 + x), hx]
    ring

theorem bytesToNat_append (a b : Bytes) :
    bytesToNat (a ++ b) = bytesToNat a * 256 ^ b.length + bytesToNat b := by
  unfold bytesToNat
  rw [List.foldl_append]
  exact foldl_byte_shift b _

theorem bytesToNat_natToBytesBE (len n : Nat) (h : n < 256 ^ len) :
    bytesToNat (natToBytesBE len n) = n := by
  induction len generalizing n with
  | zero =>
    simp [natToBytesBE, bytesToNat]
    omega
  | succ l ih =>
    have hdiv : n / 256 < 256 ^ l := by
      rw [Nat.div_lt_iff_lt_mul (by norm_num : 0 < 256)]
      calc n < 256 ^ (l + 1) := h
        _ = 256 ^ l * 256 := by ring
    show bytesToNat (natToBytesBE l (n / 256) ++ [n % 256]) = n
    rw [bytesToNat_append, ih _ hdiv]
    simp [bytesToNat]
    omega

/-- A 32-byte big-endian word, as produced by the ABI encoder for
`uint256` values and offsets. -/
def word32 (n : Nat) : Bytes := natToBytesBE 32 n

theorem length_word32 (n : Nat) : (word32 n).length = 32 :=
  length_natToBytesBE 32 n

theorem bytesToNat_word32 (n : Nat) (h : n < 2 ^ 256) :
    bytesToNat (word32 n) = n := by
  have : (256 : Nat) ^ 32 = 2 ^ 256 := by norm_num
  exact bytesToNat_natToBytesBE 32 n (by rw [this]; exact h)

/-- Read the 32-byte big-endian word starting at byte offset `pos`. -/
def readWord (data : Bytes) (pos : Nat) : Nat :=
  bytesToNat ((data.drop pos).take 32)

theorem readWord_append (A B : Bytes) (p q : Nat) (h : A.length = p) :
    readWord (A ++ B) (p + q) = readWord B q := by
  unfold readWord
  rw [← h, ← List.drop_drop, List.drop_left]

theorem readWord_append_zero (A B : Bytes) (p : Nat) (h : A.length = p) :
    readWord (A ++ B) p = readWord B 0 := by
  have := readWord_append A B p 0 h
  simpa using this

theorem readWord_word32 (n : Nat) (rest : Bytes) (h : n < 2 ^ 256) :
    readWord (word32 n ++ rest) 0 = n := by
  unfold readWord
  rw [List.drop_zero, List.take_left' (length_word32 n)]
  exact bytesToNat_word32 n h

/-! ## Execution codec (`erc7579.utils.ts`, first version, lines 17-89) -/

/-- `EncodeMode` (lines 29-34) with the defaults of `encodeMode` (lines
42-47): callType `0x00` (CALL), execType `0x00` (DEFAULT), selector
`0x00000000`, payload 22 zero bytes. -/
structure EncodeMode where
  callType : Bytes := [0x00]
  execType : Bytes := [0x00]
  selector : Bytes := [0x00, 0x00, 0x00, 0x00]
  payload : Bytes := List.replicate 22 0x00
deriving DecidableEq

/-- `encodeMode` (lines 42-51): `encodePacked` of
`bytes1 ‖ bytes1 ‖ bytes4(0x00000000) ‖ bytes4 ‖ bytes22`, i.e. plain
concatenation with four reserved zero bytes after the two type bytes. -/
def encodeMode (m : EncodeMode) : Bytes :=
  m.callType ++ m.execType ++ [0x00, 0x00, 0x00, 0x00] ++ m.selector ++ m.payload

/-- Result of `decodeMode` (lines 53-58): all four components present. -/
structure DecodedMode where
  callType : Bytes
  execType : Bytes
  selector : Bytes
  payload : Bytes
deriving DecidableEq

/-- `decodeMode` (lines 53-58): slices at fixed offsets `{0:1, 1:2, 6:10,
10:32}` (`slice mode a b` is `(mode.drop a).take (b - a)`). -/
def decodeMode (mode : Bytes) : DecodedMode :=
  { callType := (mode.drop 0).take 1
    execType := (mode.drop 1).take 1
    selector := (mode.drop 6).take 4
    payload := (mode.drop 10).take 22 }

/-- `Execution` (lines 36-40). -/
structure Execution where
  target : Bytes
  value : Nat
  callData : Bytes
deriving DecidableEq

/-- `encodeSingle` (lines 60-61): `encodePacked` of
`address(20) ‖ uint256(32, big-endian) ‖ bytes(raw)`. -/
def encodeSingle (target : Bytes) (value : Nat) (data : Bytes) : Bytes :=
  target ++ word32 value ++ data

/-- `decodeSingle` (lines 63-67): target is the first 20 bytes, value the
next 32 as a big-endian unsigned, callData the remainder when the input is
longer than 52 bytes, else empty. -/
def decodeSingle (data : Bytes) : Execution :=
  { target := (data.drop 0).take 20
    value := bytesToNat ((data.drop 20).take 32)
    callData := if 52 < data.length then data.drop 52 else [] }

/-- `encodeDelegate` (line 83): `encodePacked` of `address(20) ‖ bytes`. -/
def encodeDelegate (target : Bytes) (data : Bytes) : Bytes :=
  target ++ data

/-- `decodeDelegate` (lines 85-89): target is the first 20 bytes, callData
the remainder when longer than 20 bytes, value always zero. -/
def decodeDelegate (data : Bytes) : Execution :=
  { target := (data.drop 0).take 20
    callData := if 20 < data.length then data.drop 20 else []
    value := 0 }

theorem length_encodeMode (m : EncodeMode)
    (hc : m.callType.length = 1) (he : m.execType.length = 1)
    (hs : m.selector.length = 4) (hp : m.payload.length = 22) :
    (encodeMode m).length = 32 := by
  simp [encodeMode, hc, he, hs, hp]

theorem decodeMode_encodeMode (m : EncodeMode)
    (hc : m.callType.length = 1) (he : m.execType.length = 1)
    (hs : m.selector.length = 4) (hp : m.payload.length = 22) :
    decodeMode (encodeMode m) = ⟨m.callType, m.execType, m.selector, m.payload⟩ := by
  have hshape : encodeMode m =
      m.callType ++ (m.execType ++ ([0x00, 0x00, 0x00, 0x00] ++ (m.selector ++ m.payload))) := by
    simp [encodeMode]
  have h6 : encodeMode m =
      (m.callType ++ m.execType ++ [0x00, 0x00, 0x00, 0x00]) ++ (m.selector ++ m.payload) := by
    simp [encodeMode]
  have h10 : encodeMode m =
      (m.callType ++ m.execType ++ [0x00, 0x00, 0x00, 0x00] ++ m.selector) ++ m.payload := by
    simp [encodeMode]
  have l6 : (m.callType ++ m.execType ++ [0x00, 0x00, 0x00, 0x00]).length = 6 := by
    simp [hc, he]
  have l10 : (m.callType ++ m.execType ++ [0x00, 0x00, 0x00, 0x00] ++ m.selector).length = 10 := by
    simp [hc, he, hs]
  unfold decodeMode
  congr 1
  · -- callType: take 1 of the front
    rw [List.drop_zero, hshape, List.take_append_of_le_length (by omega),
      List.take_of_length_le (by omega)]
  · -- execType: drop 1 then take 1
    rw [hshape, ← hc, List.drop_left, List.take_append_of_le_length (by omega),
      List.take_of_length_le (by omega)]
  · -- selector: drop 6 then take 4
    rw [h6, ← l6, List.drop_left, List.take_append_of_le_length (by omega),
      List.take_of_length_le (by omega)]
  · -- payload: drop 10 then take 22
    rw [h10, ← l10, List.drop_left, List.take_of_length_le (by omega)]

theorem decodeSingle_encodeSingle (target : Bytes) (value : Nat) (data : Bytes)
    (ht : target.length = 20) (hv : value < 2 ^ 256) :
    decodeSingle (encodeSingle target value data) = ⟨target, value, data⟩ := by
  have hlen : (encodeSingle target value data).length = 52 + data.length := by
    simp [encodeSingle, ht, length_word32]
    omega
  have h20 : (target ++ (word32 value ++ data)).drop 20 = word32 value ++ data := by
    rw [← ht, List.drop_left]
  have hshape : encodeSingle target value data = target ++ (word32 value ++ data) := by
    simp [encodeSingle]
  unfold decodeSingle
  congr 1
  · rw [List.drop_zero, hshape, List.take_append_of_le_length (by omega),
      List.take_of_length_le (by omega)]
  · rw [hshape, h20, List.take_left' (length_word32 value)]
    exact bytesToNat_word32 value hv
  · rcases Nat.eq_zero_or_pos data.length with hd | hd
    · have : data = [] := List.length_eq_zero.mp hd
      subst this
      simp [hlen]
    · have hgt : 52 < (encodeSingle target value data).length := by omega
      rw [if_pos hgt, hshape]
      have h52 : (target ++ (word32 value ++ data)).drop 52 = data := by
        have : target ++ (word32 value ++ data) = (target ++ word32 value) ++ data := by simp
        rw [this, ← show (target ++ word32 value).length = 52 by
          simp [ht, length_word32], List.drop_left]
      exact h52

theorem decodeDelegate_encodeDelegate (target : Bytes) (data : Bytes)
    (ht : target.length = 20) :
    decodeDelegate (encodeDelegate target data) = ⟨target, 0, data⟩ := by
  have hlen : (encodeDelegate target data).length = 20 + data.length := by
    simp [encodeDelegate, ht]
  unfold decodeDelegate encodeDelegate
  congr 1
  · rw [List.drop_zero, List.take_append_of_le_length (by omega),
      List.take_of_length_le (by omega)]
  · rcases Nat.eq_zero_or_pos data.length with hd | hd
    · have : data = [] := List.length_eq_zero.mp hd
      subst this
      simp [encodeDelegate] at hlen ⊢
      omega
    · have hgt : 20 < (target ++ data).length := by
        simp [ht]; omega
      rw [if_pos hgt, ← ht, List.drop_left]

/-! ## Batch ABI codec (`erc7579.utils.ts` lines 69-81)

`encodeBatch` / `decodeBatch` call the ABI library's
`encodeAbiParameters` / `decodeAbiParameters` at type
`(address,uint256,bytes)[]`.  The standard ABI layout those helpers
implement is embedded here byte for byte: a dynamic value is referenced by
a 32-byte offset word; the array tail is a length word followed by one
offset word per element (offsets measured from the end of the length word)
and the element encodings; each `(address,uint256,bytes)` tuple is an
address word (left-padded to 32), a value word, the fixed offset `0x60` to
its `bytes` member, the byte length, and the bytes right-padded with zeros
to a multiple of 32. -/

/-- Right-pad a byte string with zeros up to a multiple of 32 bytes. -/
def padRight32 (bs : Bytes) : Bytes :=
  bs ++ List.replicate ((32 - bs.length % 32) % 32) 0

/-- ABI encoding of one `(address,uint256,bytes)` tuple. -/
def encTuple (e : Execution) : Bytes :=
  (List.replicate 12 0 ++ e.target) ++ word32 e.value ++ word32 96
    ++ word32 e.callData.length ++ padRight32 e.callData

/-- The per-element offset words of the array tail: element `i` is referenced
at `acc + ` the sizes of the elements before it, where `acc` starts at
32 times the element count (the size of the offset area itself). -/
def offsetWords (acc : Nat) : List Execution → Bytes
  | [] => []
  | e :: rest => word32 acc ++ offsetWords (acc + (encTuple e).length) rest

/-- The concatenated element encodings of the array tail. -/
def tailsBytes : List Execution → Bytes
  | [] => []
  | e :: rest => encTuple e ++ tailsBytes rest

/-- `encodeBatch` (lines 69-72): `encodeAbiParameters` at
`(address,uint256,bytes)[]` — a top-level offset word (`0x20`), the array
length, the element offset words, and the element encodings. -/
def encodeBatch (es : List Execution) : Bytes :=
  word32 32 ++ word32 es.length ++ offsetWords (32 * es.length) es ++ tailsBytes es

/-- Decoding of one `(address,uint256,bytes)` tuple at the head of `d`:
the address is the last 20 bytes of the first word, the value the second
word, and the `bytes` member is read through its offset word. -/
def decodeTupleAt (d : Bytes) : Execution :=
  { target := (d.take 32).drop 12
    value := readWord d 32
    callData :=
      let boff := readWord d 64
      (d.drop (boff + 32)).take (readWord d boff) }

/-- `decodeBatch` (lines 74-81): `decodeAbiParameters` at
`(address,uint256,bytes)[]` — follow the top-level offset, read the length,
then decode each element through its offset word. -/
def decodeBatch (data : Bytes) : List Execution :=
  let arr := data.drop (readWord data 0)
  let n := readWord arr 0
  let body := arr.drop 32
  (List.range n).map fun i => decodeTupleAt (body.drop (readWord body (32 * i)))

/-! ## Call dispatcher (`erc7579.utils.ts` lines 91-141) -/

/-- The caller-facing `Call` shape from the ABI library: the target
address (named `to` in the source, `toAddr` here since `to` is reserved)
required, `value` and `data` optional. -/
structure Call where
  toAddr : Bytes
  value : Option Nat
  data : Option Bytes
deriving DecidableEq

/-- The shape `decodeCalls` returns: all three fields present (the target
address is named `to` in the source, `toAddr` here). -/
structure CallOut where
  toAddr : Bytes
  value : Nat
  data : Bytes
deriving DecidableEq

/-- Map an `Execution` back to the call shape (`decodeCalls` lines 136-140). -/
def toCallOut (e : Execution) : CallOut :=
  { toAddr := e.target, value := e.value, data := e.callData }

/-- Default-fill an input `Call` into an `Execution`
(`encodeCalls` lines 102-106: `value ?? 0n`, `data ?? '0x'`). -/
def normCall (c : Call) : Execution :=
  { target := c.toAddr, value := c.value.getD 0, callData := c.data.getD [] }

/-- The 4-byte selector of `execute(bytes32,bytes)` from the
`IERC7579ExecutionABI`: the first four bytes of
`keccak256("execute(bytes32,bytes)")`, which is `0xe9ae5c53`. -/
def executeSelector : Bytes := [0xe9, 0xae, 0x5c, 0x53]

/-- `encodeFunctionData` for `execute(mode, executionCalldata)`:
selector ‖ mode word (static `bytes32`) ‖ offset word (`0x40`) ‖ byte
length of the calldata ‖ calldata right-padded to a multiple of 32. -/
def encodeExecuteData (mode executionCalldata : Bytes) : Bytes :=
  executeSelector ++ mode ++ word32 64
    ++ word32 executionCalldata.length ++ padRight32 executionCalldata

/-- Errors surfaced by `encodeCalls`.  The code constructs no typed error:
`undefinedAccess` models the TypeError thrown at runtime by
`calls[0]!.to` when `calls` is empty (the repository's own test expects a
message matching `/undefined/`); `invalidInput` is the spec's
`EncodingError (InvalidInput)` kind, against which the behavior is
compared — no code path produces it. -/
inductive EncodeErr where
  | undefinedAccess
  | invalidInput
deriving DecidableEq

/-- Errors surfaced by `decodeCalls`: `invalidSelector` models the ABI
library's rejection inside `decodeFunctionData` when the selector does not
match; `unrecognizedCallType` is the dispatcher's own
`throw new Error('Unrecognized call type')` (line 134). -/
inductive DecodeErr where
  | invalidSelector
  | unrecognizedCallType
deriving DecidableEq

/-- `encodeCalls` (first version, lines 91-111): single call → mode with
callType CALL (`0x00`) and `encodeSingle`; two or more → mode with
callType BATCH (`0x01`) and `encodeBatch`; on the empty list the code
reaches `encodeSingle(calls[0]!.to, …)` and the element access throws. -/
def encodeCalls (calls : List Call) : Except EncodeErr Bytes :=
  let isBatch := 1 < calls.length
  let mode := encodeMode { callType := if isBatch then [0x01] else [0x00] }
  if isBatch then
    .ok (encodeExecuteData mode (encodeBatch (calls.map normCall)))
  else
    match calls with
    | [] => .error .undefinedAccess
    | c :: _ => .ok (encodeExecuteData mode (encodeSingle c.toAddr (c.value.getD 0) (c.data.getD [])))

/-- `decodeFunctionData` for `execute(bytes32,bytes)`: check the selector,
then decode the two arguments — the static `bytes32` word and the dynamic
`bytes` through its offset word. -/
def decodeExecuteArgs (data : Bytes) : Except DecodeErr (Bytes × Bytes) :=
  if data.take 4 = executeSelector then
    let body := data.drop 4
    let off := readWord body 32
    .ok (body.take 32, (body.drop (off + 32)).take (readWord body off))
  else
    .error .invalidSelector

/-- `decodeCalls` (first version, lines 113-141): recover
`(mode, executionCalldata)`, then switch on the decoded callType —
DELEGATE `0xff` → `decodeDelegate` as a one-element batch, BATCH `0x01` →
`decodeBatch`, CALL `0x00` → `decodeSingle` as a one-element batch, any
other → `Unrecognized call type`. -/
def decodeCalls (data : Bytes) : Except DecodeErr (List CallOut) := do
  let (mode, executionCalldata) ← decodeExecuteArgs data
  match (decodeMode mode).callType with
  | [0xff] => .ok [toCallOut (decodeDelegate executionCalldata)]
  | [0x01] => .ok ((decodeBatch executionCalldata).map toCallOut)
  | [0x00] => .ok [toCallOut (decodeSingle executionCalldata)]
  | _ => .error .unrecognizedCallType

/-- The second `encodeCalls` version in the source file (lines 250-266):
every non-empty list is batch-encoded under the *default* mode
(callType CALL); the empty list reaches `encodeSingle(calls[0]!.to, …)`
whose element access throws. -/
def encodeCallsV2 (calls : List Call) : Except EncodeErr Bytes :=
  if 0 < calls.length then
    .ok (encodeExecuteData (encodeMode {}) (encodeBatch (calls.map normCall)))
  else
    .error .undefinedAccess

/-! ## Round-trip lemmas for the batch ABI codec -/

theorem drop_append_add (A B : Bytes) (p k : Nat) (h : A.length = p) :
    (A ++ B).drop (p + k) = B.drop k := by
  rw [← h, ← List.drop_drop, List.drop_left]

theorem length_padRight32_ge (bs : Bytes) : bs.length ≤ (padRight32 bs).length := by
  simp [padRight32]

theorem take_padRight32 (bs : Bytes) (junk : Bytes) :
    ((padRight32 bs ++ junk).take bs.length) = bs := by
  have : padRight32 bs ++ junk = bs ++ (List.replicate ((32 - bs.length % 32) % 32) 0 ++ junk) := by
    simp [padRight32]
  rw [this, List.take_append_of_le_length (le_refl _), List.take_length]

theorem callData_length_le_encTuple (e : Execution) :
    e.callData.length ≤ (encTuple e).length := by
  have h := length_padRight32_ge e.callData
  simp only [encTuple, List.length_append]
  omega

theorem length_offsetWords (es : List Execution) (acc : Nat) :
    (offsetWords acc es).length = 32 * es.length := by
  induction es generalizing acc with
  | nil => simp [offsetWords]
  | cons e tl ih =>
    simp [offsetWords, ih, length_word32]
    ring

theorem tailsBytes_cons (e : Execution) (tl : List Execution) :
    tailsBytes (e :: tl) = encTuple e ++ tailsBytes tl := rfl

theorem encTuple_length_le_tails (e : Execution) (es : List Execution) (h : e ∈ es) :
    (encTuple e).length ≤ (tailsBytes es).length := by
  induction es with
  | nil => cases h
  | cons x tl ih =>
    rcases List.mem_cons.mp h with h1 | h2
    · subst h1
      simp [tailsBytes_cons]
    · have := ih h2
      simp [tailsBytes_cons]
      omega

theorem tailsBytes_take_length_le (es : List Execution) (i : Nat) :
    (tailsBytes (es.take i)).length ≤ (tailsBytes es).length := by
  induction es generalizing i with
  | nil => simp [List.take_nil]
  | cons e tl ih =>
    cases i with
    | zero => simp [tailsBytes]
    | succ j =>
      simp only [List.take_succ_cons, tailsBytes_cons, List.length_append]
      have := ih j
      omega

theorem readWord_offsetWords (es : List Execution) (junk : Bytes) :
    ∀ i acc, i < es.length → acc + (tailsBytes es).length < 2 ^ 256 →
      readWord (offsetWords acc es ++ junk) (32 * i)
        = acc + (tailsBytes (es.take i)).length := by
  induction es with
  | nil => intro i acc hi _; cases hi
  | cons e tl ih =>
    intro i acc hi hb
    have hshape : offsetWords acc (e :: tl) ++ junk
        = word32 acc ++ (offsetWords (acc + (encTuple e).length) tl ++ junk) := by
      simp [offsetWords]
    cases i with
    | zero =>
      rw [Nat.mul_zero, hshape, readWord_word32 acc _ (by
        have : (tailsBytes (e :: tl)).length ≥ 0 := Nat.zero_le _
        omega)]
      simp [tailsBytes]
    | succ j =>
      have hstep : (32 : Nat) * (j + 1) = 32 + 32 * j := by ring
      rw [hshape, hstep, readWord_append _ _ 32 (32 * j) (length_word32 acc)]
      have hj : j < tl.length := by simpa using hi
      have hb2 : acc + (encTuple e).length + (tailsBytes tl).length < 2 ^ 256 := by
        have : (tailsBytes (e :: tl)).length = (encTuple e).length + (tailsBytes tl).length := by
          simp [tailsBytes_cons]
        omega
      rw [ih j (acc + (encTuple e).length) hj hb2]
      simp [tailsBytes_cons]
      ring

theorem drop_tailsBytes (es : List Execution) (junk : Bytes) :
    ∀ (i : Nat) (hi : i < es.length),
      (tailsBytes es ++ junk).drop ((tailsBytes (es.take i)).length)
        = encTuple (es.get ⟨i, hi⟩) ++ (tailsBytes (es.drop (i + 1)) ++ junk) := by
  induction es with
  | nil => intro i hi; cases hi
  | cons e tl ih =>
    intro i hi
    cases i with
    | zero =>
      simp [tailsBytes]
    | succ j =>
      have hj : j < tl.length := by simpa using hi
      have hshape : tailsBytes (e :: tl) ++ junk = encTuple e ++ (tailsBytes tl ++ junk) := by
        simp [tailsBytes_cons]
      have htake : (tailsBytes ((e :: tl).take (j + 1))).length
          = (encTuple e).length + (tailsBytes (tl.take j)).length := by
        simp [List.take_succ_cons, tailsBytes_cons]
      rw [hshape, htake, drop_append_add _ _ _ _ rfl, ih j hj]
      simp

theorem decodeTupleAt_encTuple (e : Execution) (junk : Bytes)
    (ht : e.target.length = 20) (hv : e.value < 2 ^ 256)
    (hd : e.callData.length < 2 ^ 256) :
    decodeTupleAt (encTuple e ++ junk) = e := by
  obtain ⟨t, v, cd⟩ := e
  simp only at ht hv hd
  have l0 : (List.replicate 12 0 ++ t).length = 32 := by simp [ht]
  have hW0 : encTuple ⟨t, v, cd⟩ ++ junk
      = (List.replicate 12 0 ++ t)
        ++ (word32 v ++ (word32 96 ++ (word32 cd.length
          ++ (padRight32 cd ++ junk)))) := by
    simp [encTuple]
  have h64 : encTuple ⟨t, v, cd⟩ ++ junk
      = ((List.replicate 12 0 ++ t) ++ word32 v)
        ++ (word32 96 ++ (word32 cd.length ++ (padRight32 cd ++ junk))) := by
    simp [encTuple]
  have h96 : encTuple ⟨t, v, cd⟩ ++ junk
      = ((List.replicate 12 0 ++ t) ++ word32 v ++ word32 96)
        ++ (word32 cd.length ++ (padRight32 cd ++ junk)) := by
    simp [encTuple]
  have h128 : encTuple ⟨t, v, cd⟩ ++ junk
      = ((List.replicate 12 0 ++ t) ++ word32 v ++ word32 96
          ++ word32 cd.length) ++ (padRight32 cd ++ junk) := by
    simp [encTuple]
  have l64 : ((List.replicate 12 0 ++ t) ++ word32 v).length = 64 := by
    simp [ht, length_word32]
  have l96 : ((List.replicate 12 0 ++ t) ++ word32 v ++ word32 96).length = 96 := by
    simp [ht, length_word32]
  have l128 : ((List.replicate 12 0 ++ t) ++ word32 v ++ word32 96
      ++ word32 cd.length).length = 128 := by
    simp [ht, length_word32]
  have hoff : readWord (encTuple ⟨t, v, cd⟩ ++ junk) 64 = 96 := by
    rw [h64, readWord_append_zero _ _ 64 l64, readWord_word32 96 _ (by norm_num)]
  have hlen : readWord (encTuple ⟨t, v, cd⟩ ++ junk) 96 = cd.length := by
    rw [h96, readWord_append_zero _ _ 96 l96, readWord_word32 _ _ hd]
  unfold decodeTupleAt
  simp only [hoff, hlen]
  congr 1
  · -- target
    rw [hW0, List.take_left' l0, List.drop_left' (by simp)]
  · -- value
    rw [hW0, readWord_append_zero _ _ 32 l0, readWord_word32 v _ hv]
  · -- callData: data starts at byte 128
    rw [show (96 : Nat) + 32 = 128 by norm_num, h128, List.drop_left' l128, take_padRight32]

theorem length_encodeBatch (es : List Execution) :
    (encodeBatch es).length = 64 + 32 * es.length + (tailsBytes es).length := by
  simp [encodeBatch, length_word32, length_offsetWords]
  ring

theorem decodeBatch_encodeBatch (es : List Execution)
    (hwf : ∀ e ∈ es, e.target.length = 20 ∧ e.value < 2 ^ 256)
    (hsz : 32 * es.length + (tailsBytes es).length < 2 ^ 256) :
    decodeBatch (encodeBatch es) = es := by
  have hn : es.length < 2 ^ 256 := by omega
  have hshape : encodeBatch es
      = word32 32 ++ (word32 es.length
        ++ (offsetWords (32 * es.length) es ++ tailsBytes es)) := by
    simp [encodeBatch]
  have harr : (encodeBatch es).drop (readWord (encodeBatch es) 0)
      = word32 es.length ++ (offsetWords (32 * es.length) es ++ tailsBytes es) := by
    rw [hshape, readWord_word32 32 _ (by norm_num), List.drop_left' (length_word32 32)]
  have hbody :
      (word32 es.length ++ (offsetWords (32 * es.length) es ++ tailsBytes es)).drop 32
        = offsetWords (32 * es.length) es ++ tailsBytes es := by
    rw [List.drop_left' (length_word32 es.length)]
  simp only [decodeBatch]
  rw [harr, readWord_word32 es.length _ hn, hbody]
  apply List.ext_get
  · simp
  · intro i h1 h2
    simp only [List.get_eq_getElem, List.getElem_map, List.getElem_range]
    have hi : i < es.length := h2
    rw [readWord_offsetWords es (tailsBytes es) i (32 * es.length) hi (by omega)]
    have hdrop := drop_tailsBytes es [] i hi
    simp only [List.append_nil] at hdrop
    rw [drop_append_add _ _ (32 * es.length) _ (length_offsetWords es _), hdrop]
    have hmem : es.get ⟨i, hi⟩ ∈ es := List.get_mem es i hi
    obtain ⟨ht, hv⟩ := hwf _ hmem
    have hd : (es.get ⟨i, hi⟩).callData.length < 2 ^ 256 := by
      have h1 := callData_length_le_encTuple (es.get ⟨i, hi⟩)
      have h2 := encTuple_length_le_tails _ es hmem
      omega
    rw [decodeTupleAt_encTuple _ _ ht hv hd]
    simp

/-! ## Round-trip lemmas for the `execute` function-data layer -/

theorem length_encodeSingle (target : Bytes) (value : Nat) (data : Bytes)
    (ht : target.length = 20) :
    (encodeSingle target value data).length = 52 + data.length := by
  simp [encodeSingle, ht, length_word32]
  omega

theorem decodeExecuteArgs_encodeExecuteData (mode cd : Bytes)
    (hm : mode.length = 32) (hcd : cd.length < 2 ^ 256) :
    decodeExecuteArgs (encodeExecuteData mode cd) = .ok (mode, cd) := by
  have hsel : encodeExecuteData mode cd
      = executeSelector ++ (mode ++ (word32 64 ++ (word32 cd.length ++ padRight32 cd))) := by
    simp [encodeExecuteData]
  have hbody : (encodeExecuteData mode cd).drop 4
      = mode ++ (word32 64 ++ (word32 cd.length ++ padRight32 cd)) := by
    rw [hsel, List.drop_left' (by rfl)]
  have htake4 : (encodeExecuteData mode cd).take 4 = executeSelector := by
    rw [hsel, List.take_left' (by rfl)]
  have l64 : (mode ++ word32 64).length = 64 := by simp [hm, length_word32]
  have l96 : (mode ++ word32 64 ++ word32 cd.length).length = 96 := by
    simp [hm, length_word32]
  have hb64 : mode ++ (word32 64 ++ (word32 cd.length ++ padRight32 cd))
      = (mode ++ word32 64) ++ (word32 cd.length ++ padRight32 cd) := by simp
  have hb96 : mode ++ (word32 64 ++ (word32 cd.length ++ padRight32 cd))
      = (mode ++ word32 64 ++ word32 cd.length) ++ padRight32 cd := by simp
  have hoff : readWord ((encodeExecuteData mode cd).drop 4) 32 = 64 := by
    rw [hbody, readWord_append_zero _ _ 32 hm, readWord_word32 64 _ (by norm_num)]
  have hlen : readWord ((encodeExecuteData mode cd).drop 4) 64 = cd.length := by
    rw [hbody, hb64, readWord_append_zero _ _ 64 l64, readWord_word32 _ _ hcd]
  unfold decodeExecuteArgs
  rw [if_pos htake4]
  simp only [hoff, hlen]
  congr 2
  · -- the static bytes32 argument
    rw [hbody, List.take_left' hm]
  · -- the dynamic bytes argument, at offset 64 + 32 = 96
    have h := take_padRight32 cd []
    rw [List.append_nil] at h
    rw [show (64 : Nat) + 32 = 96 by norm_num, hbody, hb96, List.drop_left' l96, h]

theorem decodeSingle_length_bound (c : Call) :
    (c.data.getD []).length ≤ (encTuple (normCall c)).length :=
  callData_length_le_encTuple (normCall c)

theorem toCallOut_normCall (c : Call) :
    toCallOut (normCall c) = ⟨c.toAddr, c.value.getD 0, c.data.getD []⟩ := rfl

/-! ## Signature scheme providers (the P256/RSA provider module, `ecdsa.ts`)

The providers fill the account library's `toAccount` capability record.
The external keccak-based hashing helpers (`hashMessage`, `hashTypedData`)
and the secp256r1 signing core are abstract parameters: the sources only
consume them. -/

/-- Signing errors: the providers' explicit `throw new Error(...)`. -/
inductive SignErr where
  | unsupported (msg : String)
deriving DecidableEq

/-- Result of a signing operation. -/
abbrev SigResult := Except SignErr Bytes

/-- Opaque typed-data payload: only its image under `hashTypedData` matters. -/
structure TypedData where
  payload : Bytes
deriving DecidableEq

/-- Opaque native-transaction payload (input of `signTransaction`). -/
structure Transaction where
  payload : Bytes
deriving DecidableEq

/-- Opaque authorization payload (input of `signAuthorization`). -/
structure Authorization where
  payload : Bytes
deriving DecidableEq

/-- The external hashing primitives: the standard personal-message hash and
the standard structured-data hash (both keccak-based, external). -/
structure HashPrims where
  hashMessage : Bytes → Bytes
  hashTypedData : TypedData → Bytes

/-- The capability record the providers build through the account library's
`toAccount`: the five signing operations. -/
structure LocalAccount where
  sign : Bytes → SigResult
  signAuthorization : Authorization → SigResult
  signMessage : Bytes → SigResult
  signTransaction : Transaction → SigResult
  signTypedData : TypedData → SigResult

/-- Output of the external secp256r1 signing primitive
(`secp256r1.sign(digest, privateKey, { lowS: true })`): `r`, `s`, and the
recovery bit. -/
structure P256Signature where
  r : Nat
  s : Nat
  recovery : Bool

/-- The order of the secp256r1 group (the curve the P256 provider signs
on); the primitive's low-S normalization bounds `s` by `p256Order / 2`. -/
def p256Order : Nat :=
  0xffffffff00000000ffffffffffffffffbce6faada7179e84f3b9cac2fc632551

/-- The ABI library's `serializeSignature`: `r` and `s` as 32-byte
big-endian words followed by the single recovery byte `v`. -/
def serializeSignature (r s v : Nat) : Bytes :=
  word32 r ++ word32 s ++ [v]

/-- The P256 provider's `sign` (module lines 35-40): run the external
primitive over the digest, then serialize with `v = 0x1c` when the
recovery bit is set, else `0x1b`. -/
def p256SignDigest (primSign : Bytes → P256Signature) (digest : Bytes) : Bytes :=
  let sg := primSign digest
  serializeSignature sg.r sg.s (if sg.recovery then 0x1c else 0x1b)

/-- `privateKeyP256ToAccount` (module lines 32-67): `sign` takes the digest
straight to `p256SignDigest`; message and typed-data signing hash first
with the standard externally supplied procedures; authorizations and
native transactions throw. -/
def privateKeyP256ToAccount (H : HashPrims) (primSign : Bytes → P256Signature) :
    LocalAccount :=
  { sign := fun hash => .ok (p256SignDigest primSign hash)
    signAuthorization := fun _ =>
      .error (.unsupported "Authorizations unsupported in non-native accounts")
    signMessage := fun message => .ok (p256SignDigest primSign (H.hashMessage message))
    signTransaction := fun _ =>
      .error (.unsupported "Native transactions unsupported in non-native accounts")
    signTypedData := fun td => .ok (p256SignDigest primSign (H.hashTypedData td)) }

/-- An RSA private key: the modulus `n` and private exponent `d` — the
arithmetic content of the Node `KeyObject` that `privateEncrypt` uses. -/
structure RSAKey where
  n : Nat
  d : Nat

/-- The byte length of the modulus (`k` in PKCS#1). -/
def RSAKey.byteSize (key : RSAKey) : Nat := Nat.log 256 key.n + 1

/-- PKCS#1 v1.5 type-1 (signature) padding to `k` bytes:
`0x00 0x01 0xff…0xff 0x00 ‖ m`. -/
def pkcs1v15Pad (k : Nat) (m : Bytes) : Bytes :=
  [0x00, 0x01] ++ List.replicate (k - m.length - 3) 0xff ++ [0x00] ++ m

/-- Node's `privateEncrypt` with its default RSA_PKCS1_PADDING: pad to the
modulus byte length, apply the RSA private-key operation
`c = padded ^ d mod n`, and emit `c` as one modulus-sized big-endian
block. -/
def privateEncrypt (key : RSAKey) (m : Bytes) : Bytes :=
  natToBytesBE key.byteSize (bytesToNat (pkcs1v15Pad key.byteSize m) ^ key.d % key.n)

/-- The fixed ASN.1 DigestInfo bytes identifying SHA-256, from the comment
at module line 177: `0x3031300d060960864801650304020105000420`
(SHA256 OID ‖ NULL ‖ OCTET STRING header of length 0x20). -/
def sha256DigestInfo : Bytes :=
  [0x30, 0x31, 0x30, 0x0d, 0x06, 0x09, 0x60, 0x86, 0x48, 0x01,
   0x65, 0x03, 0x04, 0x02, 0x01, 0x05, 0x00, 0x04, 0x20]

/-- The RSA provider's `sign` (module lines 173-181): `privateEncrypt`
applied to the DigestInfo prefix followed by the digest. -/
def rsaSignDigest (key : RSAKey) (digest : Bytes) : Bytes :=
  privateEncrypt key (sha256DigestInfo ++ digest)

/-- `privateKeyRSAToAccount` (module lines 170-208): same capability shape
as the P256 provider, with `rsaSignDigest` as the digest signer. -/
def privateKeyRSAToAccount (H : HashPrims) (key : RSAKey) : LocalAccount :=
  { sign := fun hash => .ok (rsaSignDigest key hash)
    signAuthorization := fun _ =>
      .error (.unsupported "Authorizations unsupported in non-native accounts")
    signMessage := fun message => .ok (rsaSignDigest key (H.hashMessage message))
    signTransaction := fun _ =>
      .error (.unsupported "Native transactions unsupported in non-native accounts")
    signTypedData := fun td => .ok (rsaSignDigest key (H.hashTypedData td)) }

/-- `ECDSA_STUB_SIGNATURE` (`ecdsa.ts` lines 11-12): the 65-byte literal
`0xff…f0 0x00…00 0x7a 0xaa…aa 0x1c`. -/
def ECDSA_STUB_SIGNATURE : Bytes :=
  List.replicate 15 0xff ++ [0xf0] ++ List.replicate 16 0x00 ++ [0x7a]
    ++ List.replicate 31 0xaa ++ [0x1c]

/-- `P256_STUB_SIGNATURE` (module lines 15-16): the same 65-byte literal
as the ECDSA stub, character for character. -/
def P256_STUB_SIGNATURE : Bytes := ECDSA_STUB_SIGNATURE

/-- `RSA_2048_BITS_STUB_SIGNATURE` (module lines 148-149): the source
literal is 3280 hex digits `f`, i.e. 1640 bytes of `0xff`. -/
def RSA_2048_BITS_STUB_SIGNATURE : Bytes := List.replicate 1640 0xff

/-! ## Account composer (`account.ts`) -/

/-- A user operation as `signUserOperation` consumes it: optional sender,
optional chain id, remaining fields opaque. -/
structure UserOperation where
  sender : Option Bytes
  chainId : Option Nat
  rest : Bytes
deriving DecidableEq

/-- The external `getUserOperationHash` of the account-abstraction
library, abstract: it hashes the operation together with the entry-point
address, the entry-point version and the chain id. -/
structure UserOpHashFn where
  hash : Bytes → String → UserOperation → Nat → Bytes

/-- `entryPointV08.address` (`constants.ts`):
`0x4337084D9E255Ff0702461CF8895CE9E3b5Ff108`. -/
def entryPointAddress : Bytes :=
  [0x43, 0x37, 0x08, 0x4d, 0x9e, 0x25, 0x5f, 0xf0, 0x70, 0x24,
   0x61, 0xcf, 0x88, 0x95, 0xce, 0x9e, 0x3b, 0x5f, 0xf1, 0x08]

/-- `entryPointV08.version` (`constants.ts`). -/
def entryPointVersion : String := "0.8"

/-- The smart-account object assembled by `toOpenZeppelinAccount`
(`account.ts` lines 94-123), restricted to the behavior the claims
concern: message and typed-data signing pass through the bound signer,
`signUserOperation` hashes and routes through the signer's `signMessage`,
and the stub-signature resolver is the one supplied. -/
structure SmartAccount where
  signMessage : Bytes → SigResult
  signTypedData : TypedData → SigResult
  signUserOperation : UserOperation → Option SigResult
  getStubSignature : Bytes

/-- `toOpenZeppelinAccount` (`account.ts` lines 94-123).  The async
`getAddress` resolver is modeled by the address it resolves to.
`signUserOperation` computes `getUserOperationHash` at the fixed entry
point, the entry-point version and the operation's chain id, over the
operation with `sender` defaulted to the resolved address
(`userOperation.sender ?? await this.getAddress()`), then returns
`signer.signMessage({ message: { raw: userOpHash } })`.  The non-null
assertion `userOperation.chainId!` is modeled as `Option.map`: the claims
only concern operations that carry a chain id. -/
def toOpenZeppelinAccount (G : UserOpHashFn) (signer : LocalAccount)
    (getAddress : Bytes) (getStubSignature : Bytes) : SmartAccount :=
  { signMessage := signer.signMessage
    signTypedData := signer.signTypedData
    signUserOperation := fun userOperation =>
      userOperation.chainId.map fun chainId =>
        signer.signMessage (G.hash entryPointAddress entryPointVersion
          { userOperation with sender := some (userOperation.sender.getD getAddress) }
          chainId)
    getStubSignature := getStubSignature }

/-- `toOpenZeppelinECDSAAccount` (`ecdsa.ts` lines 70-74): the caller's
externally supplied secp256k1 signer, unchanged, plus the fixed ECDSA stub
signature.  No operation of the signer is overridden or restricted. -/
def toOpenZeppelinECDSAAccount (G : UserOpHashFn) (signer : LocalAccount)
    (getAddress : Bytes) : SmartAccount :=
  toOpenZeppelinAccount G signer getAddress ECDSA_STUB_SIGNATURE

/-- `toOpenZeppelinP256Account` (module lines 127-131). -/
def toOpenZeppelinP256Account (G : UserOpHashFn) (signer : LocalAccount)
    (getAddress : Bytes) : SmartAccount :=
  toOpenZeppelinAccount G signer getAddress P256_STUB_SIGNATURE

/-- `toOpenZeppelinRSAAccount` (module lines 271-275). -/
def toOpenZeppelinRSAAccount (G : UserOpHashFn) (signer : LocalAccount)
    (getAddress : Bytes) : SmartAccount :=
  toOpenZeppelinAccount G signer getAddress RSA_2048_BITS_STUB_SIGNATURE

/-- A permissive externally supplied secp256k1 signer (as the account
library's `privateKeyToAccount` produces): every operation succeeds,
native-transaction signing included.  The repository's ECDSA variant
accepts such a signer as-is. -/
def permissiveSigner : LocalAccount :=
  { sign := fun _ => .ok [0x01]
    signAuthorization := fun _ => .ok [0x02]
    signMessage := fun _ => .ok [0x03]
    signTransaction := fun _ => .ok [0x04]
    signTypedData := fun _ => .ok [0x05] }

/-- A trivial stand-in for the abstract user-operation hash, used to
instantiate universally quantified statements at a concrete input. -/
def zeroHashFn : UserOpHashFn := ⟨fun _ _ _ _ => []⟩

/-- A trivial stand-in for the abstract hashing primitives. -/
def zeroHashPrims : HashPrims := ⟨fun _ => [], fun _ => []⟩

/-- A trivial stand-in for the external secp256r1 primitive. -/
def constP256Prim : Bytes → P256Signature := fun _ => ⟨3, 5, true⟩

/-- A sample two-call input for concrete instantiations. -/
def sampleCalls : List Call :=
  [⟨List.replicate 20 0x11, some 5, some [0xde, 0xad]⟩,
   ⟨List.replicate 20 0x22, none, none⟩]

/-- The mode word of an `execute` encoding sits at bytes 4..36, right
after the selector. -/
theorem drop4_take32_encodeExecuteData (mode cd : Bytes) (hm : mode.length = 32) :
    ((encodeExecuteData mode cd).drop 4).take 32 = mode := by
  have hsel : encodeExecuteData mode cd
      = executeSelector ++ (mode ++ (word32 64 ++ (word32 cd.length ++ padRight32 cd))) := by
    simp [encodeExecuteData]
  rw [hsel, List.drop_left' (show executeSelector.length = 4 from rfl), List.take_left' hm]

/-- How `decodeCalls` treats any well-formed `execute(mode, calldata)`
encoding: the decoded callType byte selects the decoder, anything outside
`{0x00, 0x01, 0xff}` is the `Unrecognized call type` error. -/
theorem decodeCalls_encodeExecuteData (mode cd : Bytes)
    (hm : mode.length = 32) (hcd : cd.length < 2 ^ 256) :
    decodeCalls (encodeExecuteData mode cd)
      = match mode.take 1 with
        | [0xff] => .ok [toCallOut (decodeDelegate cd)]
        | [0x01] => .ok ((decodeBatch cd).map toCallOut)
        | [0x00] => .ok [toCallOut (decodeSingle cd)]
        | _ => .error .unrecognizedCallType := by
  simp only [decodeCalls]
  rw [decodeExecuteArgs_encodeExecuteData mode cd hm hcd]
  rfl

theorem length_padRight32 (bs : Bytes) :
    (padRight32 bs).length = bs.length + (32 - bs.length % 32) % 32 := by
  simp [padRight32]

theorem length_padRight32_le (bs : Bytes) :
    (padRight32 bs).length ≤ bs.length + 31 := by
  rw [length_padRight32]
  omega

theorem length_encodeExecuteData (mode cd : Bytes) (hm : mode.length = 32) :
    (encodeExecuteData mode cd).length = 100 + (padRight32 cd).length := by
  simp [encodeExecuteData, executeSelector, hm, length_word32]
  omega

theorem length_encTuple (e : Execution) (ht : e.target.length = 20) :
    (encTuple e).length = 128 + (padRight32 e.callData).length := by
  simp [encTuple, ht, length_word32]
  omega

/-! ## The claims -/

/-- C8: for every 1-byte callType, 1-byte execType, 4-byte selector and
22-byte payload, `encodeMode` produces a word of exactly 32 bytes laid out
as callType ‖ execType ‖ four zero bytes ‖ selector ‖ payload, and
`decodeMode` recovers exactly those four components. -/
theorem encodeMode_layout_decodeMode_roundtrip
    (callType execType selector payload : Bytes)
    (hc : callType.length = 1) (he : execType.length = 1)
    (hs : selector.length = 4) (hp : payload.length = 22) :
    (encodeMode ⟨callType, execType, selector, payload⟩).length = 32
    ∧ encodeMode ⟨callType, execType, selector, payload⟩
        = callType ++ execType ++ [0x00, 0x00, 0x00, 0x00] ++ selector ++ payload
    ∧ decodeMode (encodeMode ⟨callType, execType, selector, payload⟩)
        = ⟨callType, execType, selector, payload⟩ :=
  ⟨length_encodeMode _ hc he hs hp, rfl, decodeMode_encodeMode _ hc he hs hp⟩

/-- C8 witness: the round trip at a concrete mode. -/
theorem encodeMode_layout_decodeMode_roundtrip_witness :
    ([0xff] : Bytes).length = 1 ∧ ([0x01] : Bytes).length = 1
    ∧ ([1, 2, 3, 4] : Bytes).length = 4 ∧ (List.replicate 22 7 : Bytes).length = 22
    ∧ ((encodeMode ⟨[0xff], [0x01], [1, 2, 3, 4], List.replicate 22 7⟩).length = 32
      ∧ encodeMode ⟨[0xff], [0x01], [1, 2, 3, 4], List.replicate 22 7⟩
          = [0xff] ++ [0x01] ++ [0x00, 0x00, 0x00, 0x00] ++ [1, 2, 3, 4] ++ List.replicate 22 7
      ∧ decodeMode (encodeMode ⟨[0xff], [0x01], [1, 2, 3, 4], List.replicate 22 7⟩)
          = ⟨[0xff], [0x01], [1, 2, 3, 4], List.replicate 22 7⟩) :=
  ⟨by decide, by decide, by decide, by decide,
    encodeMode_layout_decodeMode_roundtrip [0xff] [0x01] [1, 2, 3, 4] (List.replicate 22 7)
      (by decide) (by decide) (by decide) (by decide)⟩

/-- C2 counterexample: `encodeCalls []` does not fail with the spec's
`EncodingError (InvalidInput)` kind — the code constructs no such error. -/
theorem encodeCalls_empty_no_invalidInput :
    encodeCalls [] ≠ Except.error EncodeErr.invalidInput := by decide

/-- C2 as amended: `encodeCalls []` does fail — it returns no encoding —
but the failure is the runtime TypeError of the undefined element access
`calls[0]!.to` (the repository's own test expects a message matching
`/undefined/`), not a typed InvalidInput encoding error. -/
theorem encodeCalls_empty_undefinedAccess :
    encodeCalls [] = Except.error EncodeErr.undefinedAccess := by decide

/-- C4: for every `execute(mode, executionCalldata)` payload, `decodeCalls`
dispatches on the callType byte of the mode word: `0xff` → `decodeDelegate`
wrapped as a one-element sequence, `0x01` → `decodeBatch`, `0x00` →
`decodeSingle` wrapped as a one-element sequence, and any other callType
fails with the `Unrecognized call type` error. -/
theorem decodeCalls_callType_dispatch (mode cd : Bytes)
    (hm : mode.length = 32) (hcd : cd.length < 2 ^ 256) :
    decodeCalls (encodeExecuteData mode cd)
      = match mode.take 1 with
        | [0xff] => .ok [toCallOut (decodeDelegate cd)]
        | [0x01] => .ok ((decodeBatch cd).map toCallOut)
        | [0x00] => .ok [toCallOut (decodeSingle cd)]
        | _ => .error .unrecognizedCallType :=
  decodeCalls_encodeExecuteData mode cd hm hcd

/-- C4 witness: a mode word with the unrecognized callType `0x07`. -/
theorem decodeCalls_callType_dispatch_witness :
    (List.replicate 32 0x07 : Bytes).length = 32 ∧ ([] : Bytes).length < 2 ^ 256
    ∧ decodeCalls (encodeExecuteData (List.replicate 32 0x07) [])
        = match (List.replicate 32 0x07 : Bytes).take 1 with
          | [0xff] => .ok [toCallOut (decodeDelegate [])]
          | [0x01] => .ok ((decodeBatch []).map toCallOut)
          | [0x00] => .ok [toCallOut (decodeSingle [])]
          | _ => .error .unrecognizedCallType :=
  ⟨by decide, by decide,
    decodeCalls_callType_dispatch (List.replicate 32 0x07) [] (by decide) (by decide)⟩

/-- C5: the P256 provider's digest signing serializes the primitive's
output as the 65 bytes r (32, big-endian) ‖ s (32, big-endian) ‖ v with
v = 0x1c when the recovery bit is set and 0x1b otherwise; the r and s
fields decode back to the primitive's values, so the low-S bound the
primitive guarantees (`lowS: true`) holds of the s field. -/
theorem p256_signDigest_layout (primSign : Bytes → P256Signature) (digest : Bytes)
    (hr : (primSign digest).r < 2 ^ 256) (hs : (primSign digest).s < 2 ^ 256)
    (hlow : (primSign digest).s ≤ p256Order / 2) :
    (p256SignDigest primSign digest).length = 65
    ∧ p256SignDigest primSign digest
        = word32 (primSign digest).r ++ word32 (primSign digest).s
          ++ [if (primSign digest).recovery then 0x1c else 0x1b]
    ∧ bytesToNat ((p256SignDigest primSign digest).take 32) = (primSign digest).r
    ∧ bytesToNat (((p256SignDigest primSign digest).drop 32).take 32) = (primSign digest).s
    ∧ bytesToNat (((p256SignDigest primSign digest).drop 32).take 32) ≤ p256Order / 2
    ∧ (p256SignDigest primSign digest).drop 64
        = [if (primSign digest).recovery then 0x1c else 0x1b] := by
  have hdef : p256SignDigest primSign digest
      = word32 (primSign digest).r ++ (word32 (primSign digest).s
        ++ [if (primSign digest).recovery then 0x1c else 0x1b]) := by
    simp [p256SignDigest, serializeSignature]
  have hsfield : bytesToNat (((p256SignDigest primSign digest).drop 32).take 32)
      = (primSign digest).s := by
    rw [hdef, List.drop_left' (length_word32 _), List.take_left' (length_word32 _),
      bytesToNat_word32 _ hs]
  refine ⟨?_, by simpa using hdef, ?_, hsfield, hsfield ▸ hlow, ?_⟩
  · rw [hdef]
    simp [length_word32]
  · rw [hdef, List.take_left' (length_word32 _), bytesToNat_word32 _ hr]
  · have l64 : (word32 (primSign digest).r ++ word32 (primSign digest).s).length = 64 := by
      simp [length_word32]
    rw [hdef, show word32 (primSign digest).r ++ (word32 (primSign digest).s
        ++ [if (primSign digest).recovery then 0x1c else 0x1b])
      = (word32 (primSign digest).r ++ word32 (primSign digest).s)
        ++ [if (primSign digest).recovery then 0x1c else 0x1b] by simp,
      List.drop_left' l64]

/-- C5 witness: the layout at a trivial concrete primitive and digest. -/
theorem p256_signDigest_layout_witness :
    (constP256Prim []).r < 2 ^ 256 ∧ (constP256Prim []).s < 2 ^ 256
    ∧ (constP256Prim []).s ≤ p256Order / 2
    ∧ (p256SignDigest constP256Prim []).length = 65
    ∧ bytesToNat ((p256SignDigest constP256Prim []).take 32) = (constP256Prim []).r := by
  have h := p256_signDigest_layout constP256Prim [] (by decide) (by decide) (by decide)
  exact ⟨by decide, by decide, by decide, h.1, h.2.2.1⟩

/-- C6 counterexample: the ECDSA variant places no UnsupportedOperation
behavior on native-transaction or authorization signing — it binds the
externally supplied secp256k1 signer as-is (here a permissive signer whose
`signTransaction` succeeds), so the variant's transaction signing does not
fail with UnsupportedOperation. -/
theorem ecdsa_variant_signTransaction_unrestricted :
    (toOpenZeppelinECDSAAccount zeroHashFn permissiveSigner []).signMessage []
        = permissiveSigner.signMessage []
    ∧ (toOpenZeppelinECDSAAccount zeroHashFn permissiveSigner []).getStubSignature
        = ECDSA_STUB_SIGNATURE
    ∧ permissiveSigner.signTransaction ⟨[]⟩ = Except.ok [0x04]
    ∧ (permissiveSigner.signTransaction ⟨[]⟩).isOk = true :=
  ⟨rfl, rfl, rfl, rfl⟩

/-- C6 as amended: the P256 and RSA providers fail with an
UnsupportedOperation error on `signTransaction` and `signAuthorization`
for every input; the ECDSA variant delegates to the externally supplied
secp256k1 signer and imposes no such failure. -/
theorem p256_rsa_unsupported_native_signing (H : HashPrims)
    (primSign : Bytes → P256Signature) (key : RSAKey)
    (tx : Transaction) (auth : Authorization) :
    (privateKeyP256ToAccount H primSign).signTransaction tx
        = .error (.unsupported "Native transactions unsupported in non-native accounts")
    ∧ (privateKeyP256ToAccount H primSign).signAuthorization auth
        = .error (.unsupported "Authorizations unsupported in non-native accounts")
    ∧ (privateKeyRSAToAccount H key).signTransaction tx
        = .error (.unsupported "Native transactions unsupported in non-native accounts")
    ∧ (privateKeyRSAToAccount H key).signAuthorization auth
        = .error (.unsupported "Authorizations unsupported in non-native accounts") :=
  ⟨rfl, rfl, rfl, rfl⟩

/-- C7: the RSA variant's stub signature is the all-0xff byte string of
the source literal — which is 1640 bytes long, not the 256 bytes a real
signature under the 2048-bit modulus named by the constant would have. -/
theorem rsa_stub_signature_length_1640 (G : UserOpHashFn) (signer : LocalAccount)
    (addr : Bytes) :
    (toOpenZeppelinRSAAccount G signer addr).getStubSignature
        = List.replicate 1640 0xff
    ∧ (toOpenZeppelinRSAAccount G signer addr).getStubSignature.length = 1640
    ∧ (toOpenZeppelinRSAAccount G signer addr).getStubSignature.length ≠ 256 := by
  refine ⟨rfl, ?_, ?_⟩ <;>
    simp [toOpenZeppelinRSAAccount, toOpenZeppelinAccount, RSA_2048_BITS_STUB_SIGNATURE]

/-- C9: for every RSA key with a modulus of at least 2048 bits, the RSA
provider's digest signing applies the PKCS#1 v1.5 private-key primitive to
the fixed SHA-256 DigestInfo prefix
`0x3031300d060960864801650304020105000420` followed by the digest, and the
signature is exactly as long as the modulus in bytes — in particular 256
bytes when the modulus is a 2048-bit number. -/
theorem rsaSignDigest_digestInfo_and_length (key : RSAKey) (digest : Bytes)
    (h32 : digest.length = 32) (hlo : 2 ^ 2047 ≤ key.n) :
    rsaSignDigest key digest = privateEncrypt key (sha256DigestInfo ++ digest)
    ∧ sha256DigestInfo
        = [0x30, 0x31, 0x30, 0x0d, 0x06, 0x09, 0x60, 0x86, 0x48, 0x01,
           0x65, 0x03, 0x04, 0x02, 0x01, 0x05, 0x00, 0x04, 0x20]
    ∧ (rsaSignDigest key digest).length = key.byteSize
    ∧ (key.n < 2 ^ 2048 → key.byteSize = 256) := by
  refine ⟨rfl, rfl, length_natToBytesBE _ _, fun hhi => ?_⟩
  have hpow : (256 : Nat) ^ 255 ≤ 2 ^ 2047 := by norm_num
  have hpow2 : (2 : Nat) ^ 2048 = 256 ^ (255 + 1) := by norm_num
  have hlog : Nat.log 256 key.n = 255 :=
    Nat.log_eq_of_pow_le_of_lt_pow (le_trans hpow hlo) (hpow2 ▸ hhi)
  unfold RSAKey.byteSize
  omega

/-- C9 witness: a concrete 2048-bit modulus and the zero digest. -/
theorem rsaSignDigest_digestInfo_and_length_witness :
    (List.replicate 32 0 : Bytes).length = 32
    ∧ 2 ^ 2047 ≤ (RSAKey.mk (2 ^ 2047) 1).n
    ∧ (rsaSignDigest (RSAKey.mk (2 ^ 2047) 1) (List.replicate 32 0)).length
        = (RSAKey.mk (2 ^ 2047) 1).byteSize
    ∧ (RSAKey.mk (2 ^ 2047) 1).byteSize = 256 := by
  have h := rsaSignDigest_digestInfo_and_length (RSAKey.mk (2 ^ 2047) 1)
    (List.replicate 32 0) (by decide) (le_refl _)
  exact ⟨by decide, le_refl _, h.2.2.1, h.2.2.2 (by norm_num)⟩

/-- C3: for every user operation carrying a chain id,
`signUserOperation` computes the external ERC-4337 user-operation hash at
the fixed entry-point address, the entry-point version and the operation's
chain id with `sender` defaulted to the resolved account address, and
returns the signer's `signMessage` applied to that hash as raw message
bytes; with the P256 provider bound, the result is therefore the digest
signature of `hashMessage` applied on top of the already-computed
operation hash — the intentional double hash. -/
theorem signUserOperation_hash_then_signMessage (G : UserOpHashFn) (H : HashPrims)
    (primSign : Bytes → P256Signature) (signer : LocalAccount)
    (getAddress stub : Bytes) (op : UserOperation) (chainId : Nat)
    (hc : op.chainId = some chainId) :
    (toOpenZeppelinAccount G signer getAddress stub).signUserOperation op
      = some (signer.signMessage (G.hash entryPointAddress entryPointVersion
          { op with sender := some (op.sender.getD getAddress) } chainId))
    ∧ (toOpenZeppelinAccount G (privateKeyP256ToAccount H primSign)
        getAddress stub).signUserOperation op
      = some (.ok (p256SignDigest primSign (H.hashMessage
          (G.hash entryPointAddress entryPointVersion
            { op with sender := some (op.sender.getD getAddress) } chainId)))) := by
  constructor <;> simp [toOpenZeppelinAccount, privateKeyP256ToAccount, hc]

/-- C3 witness: a concrete operation with chain id 1 under trivial
stand-ins for the external hash functions. -/
theorem signUserOperation_hash_then_signMessage_witness :
    (UserOperation.mk none (some 1) []).chainId = some 1
    ∧ (toOpenZeppelinAccount zeroHashFn permissiveSigner [] []).signUserOperation
        (UserOperation.mk none (some 1) [])
      = some (permissiveSigner.signMessage (zeroHashFn.hash entryPointAddress
          entryPointVersion (UserOperation.mk (some []) (some 1) []) 1)) := by
  have h := signUserOperation_hash_then_signMessage zeroHashFn zeroHashPrims
    constP256Prim permissiveSigner [] [] (UserOperation.mk none (some 1) []) 1 rfl
  exact ⟨rfl, h.1⟩

/-- C1: for every non-empty call sequence with 20-byte targets (values and
sizes within the uint256 range), `decodeCalls (encodeCalls calls)` returns
the same sequence in order, with omitted values defaulted to 0 and omitted
data to empty; the mode word of the encoding carries callType BATCH (0x01)
for two or more calls and CALL (0x00) for exactly one. -/
theorem encodeCalls_decodeCalls_roundtrip (calls : List Call) (hne : calls ≠ [])
    (hwf : ∀ c ∈ calls, c.toAddr.length = 20 ∧ c.value.getD 0 < 2 ^ 256)
    (hsz : 96 + 32 * calls.length + (tailsBytes (calls.map normCall)).length < 2 ^ 256) :
    ∃ E, encodeCalls calls = .ok E
      ∧ decodeCalls E
          = .ok (calls.map fun c => ⟨c.toAddr, c.value.getD 0, c.data.getD []⟩)
      ∧ (decodeMode ((E.drop 4).take 32)).callType
          = (if 1 < calls.length then [0x01] else [0x00]) := by
  match calls, hne with
  | [c], _ =>
    obtain ⟨ht, hv⟩ := hwf c (by simp)
    have hmode : (encodeMode { callType := [0x00] }).length = 32 :=
      length_encodeMode _ rfl rfl rfl (by simp)
    have htail : (tailsBytes ([c].map normCall)).length = (encTuple (normCall c)).length := by
      simp [tailsBytes]
    have hdle : (c.data.getD []).length ≤ (encTuple (normCall c)).length :=
      callData_length_le_encTuple (normCall c)
    have hlen1 : ([c] : List Call).length = 1 := rfl
    have hcdS : (encodeSingle c.toAddr (c.value.getD 0) (c.data.getD [])).length < 2 ^ 256 := by
      rw [length_encodeSingle _ _ _ ht]
      rw [hlen1, htail] at hsz
      omega
    have hnb : ¬ (1 < ([c] : List Call).length) := by simp
    have henc : encodeCalls [c]
        = .ok (encodeExecuteData (encodeMode { callType := [0x00] })
            (encodeSingle c.toAddr (c.value.getD 0) (c.data.getD []))) := by
      simp only [encodeCalls]
      rw [if_neg hnb, if_neg hnb]
    refine ⟨_, henc, ?_, ?_⟩
    · rw [decodeCalls_encodeExecuteData _ _ hmode hcdS]
      show Except.ok [toCallOut (decodeSingle
        (encodeSingle c.toAddr (c.value.getD 0) (c.data.getD [])))] = _
      rw [decodeSingle_encodeSingle _ _ _ ht hv]
      simp [toCallOut]
    · rw [drop4_take32_encodeExecuteData _ _ hmode,
        decodeMode_encodeMode { callType := [0x00] } rfl rfl rfl (by simp), if_neg hnb]
  | a :: b :: tl, _ =>
    have h2 : 1 < (a :: b :: tl).length := by simp
    have hwfes : ∀ e ∈ (a :: b :: tl).map normCall,
        e.target.length = 20 ∧ e.value < 2 ^ 256 := by
      intro e he
      obtain ⟨c, hc, rfl⟩ := List.mem_map.mp he
      exact hwf c hc
    have hlenmap : ((a :: b :: tl).map normCall).length = (a :: b :: tl).length :=
      List.length_map _ _
    have hszb : 32 * ((a :: b :: tl).map normCall).length
        + (tailsBytes ((a :: b :: tl).map normCall)).length < 2 ^ 256 := by
      rw [hlenmap]
      omega
    have hdec := decodeBatch_encodeBatch _ hwfes hszb
    have hmode : (encodeMode { callType := [0x01] }).length = 32 :=
      length_encodeMode _ rfl rfl rfl (by simp)
    have hcdB : (encodeBatch ((a :: b :: tl).map normCall)).length < 2 ^ 256 := by
      rw [length_encodeBatch, hlenmap]
      omega
    have henc : encodeCalls (a :: b :: tl)
        = .ok (encodeExecuteData (encodeMode { callType := [0x01] })
            (encodeBatch ((a :: b :: tl).map normCall))) := by
      simp only [encodeCalls]
      rw [if_pos h2, if_pos h2]
    refine ⟨_, henc, ?_, ?_⟩
    · rw [decodeCalls_encodeExecuteData _ _ hmode hcdB]
      show Except.ok ((decodeBatch (encodeBatch ((a :: b :: tl).map normCall))).map
        toCallOut) = _
      rw [hdec, List.map_map]
      rfl
    · rw [drop4_take32_encodeExecuteData _ _ hmode,
        decodeMode_encodeMode { callType := [0x01] } rfl rfl rfl (by simp), if_pos h2]

/-- C1 witness: the round trip at a concrete two-call sequence (one call
with explicit value and data, one with both omitted). -/
theorem encodeCalls_decodeCalls_roundtrip_witness :
    sampleCalls ≠ []
    ∧ (∀ c ∈ sampleCalls, c.toAddr.length = 20 ∧ c.value.getD 0 < 2 ^ 256)
    ∧ 96 + 32 * sampleCalls.length + (tailsBytes (sampleCalls.map normCall)).length < 2 ^ 256
    ∧ (∃ E, encodeCalls sampleCalls = .ok E
        ∧ decodeCalls E
            = .ok (sampleCalls.map fun c => ⟨c.toAddr, c.value.getD 0, c.data.getD []⟩)
        ∧ (decodeMode ((E.drop 4).take 32)).callType
            = (if 1 < sampleCalls.length then [0x01] else [0x00])) :=
  ⟨by decide, by decide, by decide,
    encodeCalls_decodeCalls_roundtrip sampleCalls (by decide) (by decide) (by decide)⟩

/-- C10 counterexample: on a concrete single call the two `encodeCalls`
versions of the source file produce different bytes (the first packs a
single execution, the second ABI-encodes a one-element batch). -/
theorem encodeCalls_two_versions_counterexample :
    encodeCalls [⟨List.replicate 20 0x11, some 5, some [0xde, 0xad]⟩]
      ≠ encodeCallsV2 [⟨List.replicate 20 0x11, some 5, some [0xde, 0xad]⟩] := by
  decide

/-- C10 as amended: the two `encodeCalls` versions are extensionally equal
on no non-empty input (targets being 20-byte addresses).  For two or more
calls both batch-encode the same executionCalldata, but the first sets
callType BATCH (0x01) in the mode word while the second keeps the default
CALL (0x00); for exactly one call the first emits the packed single
encoding while the second emits a strictly longer one-element ABI batch;
in every case the outputs differ. -/
theorem encodeCalls_two_versions_differ (calls : List Call) (hne : calls ≠ [])
    (hwf : ∀ c ∈ calls, c.toAddr.length = 20) :
    encodeCallsV2 calls
        = .ok (encodeExecuteData (encodeMode {})
            (encodeBatch (calls.map normCall)))
    ∧ (2 ≤ calls.length →
        encodeCalls calls
          = .ok (encodeExecuteData (encodeMode { callType := [0x01] })
              (encodeBatch (calls.map normCall))))
    ∧ (∀ c, calls = [c] →
        encodeCalls calls
          = .ok (encodeExecuteData (encodeMode { callType := [0x00] })
              (encodeSingle c.toAddr (c.value.getD 0) (c.data.getD []))))
    ∧ encodeCalls calls ≠ encodeCallsV2 calls := by
  match calls, hne with
  | [c], _ =>
    have ht : c.toAddr.length = 20 := hwf c (by simp)
    have hnb : ¬ (1 < ([c] : List Call).length) := by simp
    have henc1 : encodeCalls [c]
        = .ok (encodeExecuteData (encodeMode { callType := [0x00] })
            (encodeSingle c.toAddr (c.value.getD 0) (c.data.getD []))) := by
      simp only [encodeCalls]
      rw [if_neg hnb, if_neg hnb]
    have hencV2 : encodeCallsV2 [c]
        = .ok (encodeExecuteData (encodeMode {}) (encodeBatch ([c].map normCall))) := by
      simp only [encodeCallsV2]
      rw [if_pos (by simp)]
    refine ⟨hencV2, ?_, ?_, ?_⟩
    · intro h
      simp at h
    · intro cx hcx
      simp only [List.cons.injEq, and_true] at hcx
      subst hcx
      exact henc1
    · intro heq
      rw [henc1, hencV2] at heq
      have hEeq : encodeExecuteData (encodeMode { callType := [0x00] })
          (encodeSingle c.toAddr (c.value.getD 0) (c.data.getD []))
          = encodeExecuteData (encodeMode {}) (encodeBatch ([c].map normCall)) := by
        injection heq
      have hmode0 : (encodeMode ({} : EncodeMode)).length = 32 :=
        length_encodeMode _ rfl rfl rfl (by simp)
      have hL := congrArg List.length hEeq
      rw [length_encodeExecuteData _ _ hmode0, length_encodeExecuteData _ _ hmode0] at hL
      have hc1 : (encodeSingle c.toAddr (c.value.getD 0) (c.data.getD [])).length
          = 52 + (c.data.getD []).length := length_encodeSingle _ _ _ ht
      have htail1 : (tailsBytes ([c].map normCall)).length
          = (encTuple (normCall c)).length := by
        simp [tailsBytes]
      have hc2 : (encodeBatch ([c].map normCall)).length
          = 224 + (padRight32 (c.data.getD [])).length := by
        rw [length_encodeBatch, htail1, length_encTuple (normCall c) ht]
        simp only [normCall, List.length_map, List.length_cons, List.length_nil]
        omega
      have hp1 := length_padRight32_le
        (encodeSingle c.toAddr (c.value.getD 0) (c.data.getD []))
      have hg2 := length_padRight32_ge (encodeBatch ([c].map normCall))
      have hgd := length_padRight32_ge (c.data.getD [])
      omega
  | a :: b :: tl, _ =>
    have hlt : 1 < (a :: b :: tl).length := by simp
    have h0 : 0 < (a :: b :: tl).length := by simp
    have h1 : encodeCalls (a :: b :: tl)
        = .ok (encodeExecuteData (encodeMode { callType := [0x01] })
            (encodeBatch ((a :: b :: tl).map normCall))) := by
      simp only [encodeCalls]
      rw [if_pos hlt, if_pos hlt]
    have hv2 : encodeCallsV2 (a :: b :: tl)
        = .ok (encodeExecuteData (encodeMode {})
            (encodeBatch ((a :: b :: tl).map normCall))) := by
      simp only [encodeCallsV2]
      rw [if_pos h0]
    refine ⟨hv2, fun _ => h1, ?_, ?_⟩
    · intro cx hcx
      simp at hcx
    · intro heq
      rw [h1, hv2] at heq
      have hE : encodeExecuteData (encodeMode { callType := [0x01] })
          (encodeBatch ((a :: b :: tl).map normCall))
          = encodeExecuteData (encodeMode {})
              (encodeBatch ((a :: b :: tl).map normCall)) := by
        injection heq
      have hm1 : (encodeMode { callType := [0x01] }).length = 32 :=
        length_encodeMode _ rfl rfl rfl (by simp)
      have hm0 : (encodeMode ({} : EncodeMode)).length = 32 :=
        length_encodeMode _ rfl rfl rfl (by simp)
      have hmode_eq : encodeMode { callType := [0x01] } = encodeMode ({} : EncodeMode) := by
        have hx1 := drop4_take32_encodeExecuteData (encodeMode { callType := [0x01] })
          (encodeBatch ((a :: b :: tl).map normCall)) hm1
        have hx0 := drop4_take32_encodeExecuteData (encodeMode ({} : EncodeMode))
          (encodeBatch ((a :: b :: tl).map normCall)) hm0
        rw [← hx1, ← hx0, hE]
      exact absurd hmode_eq (by decide)

/-- C10 witness: the theorem at a concrete two-call sequence. -/
theorem encodeCalls_two_versions_differ_witness :
    sampleCalls ≠ []
    ∧ (∀ c ∈ sampleCalls, c.toAddr.length = 20)
    ∧ (encodeCallsV2 sampleCalls
          = .ok (encodeExecuteData (encodeMode {})
              (encodeBatch (sampleCalls.map normCall)))
      ∧ (2 ≤ sampleCalls.length →
          encodeCalls sampleCalls
            = .ok (encodeExecuteData (encodeMode { callType := [0x01] })
                (encodeBatch (sampleCalls.map normCall))))
      ∧ (∀ c, sampleCalls = [c] →
          encodeCalls sampleCalls
            = .ok (encodeExecuteData (encodeMode { callType := [0x00] })
                (encodeSingle c.toAddr (c.value.getD 0) (c.data.getD []))))
      ∧ encodeCalls sampleCalls ≠ encodeCallsV2 sampleCalls) :=
  ⟨by decide, by decide,
    encodeCalls_two_versions_differ sampleCalls (by decide) (by decide)⟩

end Accounts
